import Mathlib

/-!
Verification of the just-read PDF viewer (src/main.py).

The development shallow-embeds the two cores of the program:

* the word-granular selection subsystem of `PDFPageLabel`
  (`get_word_index_at`, `mousePressEvent`, `mouseMoveEvent`,
  `keyPressEvent`, `copy_selection`), and
* the visibility-driven render/evict scheduler of `JustReadApp`
  (`update_page_visibility`, `render_single_page`, `clear_single_page`,
  `apply_new_zoom`, `zoom_out`).

Coordinates and zoom factors are embedded as rationals; Python integer
truncation (`int(...)`) is `pyint`, and Python list slicing is `pySlice`.
The Python `-1` sentinels for "no word" / "no selection" are kept as the
integer `-1`.  For the zoom claim, whose truth hinges on IEEE-754 binary64
rounding of Python floats, the file additionally models binary64
round-to-nearest-even exactly on rationals (`fp64round`).  Rasterization
is a parameter `ras : Nat -> Rat -> Option (Rat x Nat)`; `none` models a
raised exception, `some bm` a produced bitmap tagged with the zoom and
page index it was rendered at.
-/

namespace JustRead

/-- Python `int(q)` on a nonnegative/any rational: truncation toward zero
(`Int.div` truncates toward zero, matching CPython `int()` on floats). -/
def pyint (q : ℚ) : ℤ := q.num / (q.den : ℤ)

/-- Floor of a rational as an integer (`Int.fdiv` is floor division and
`q.den > 0`). -/
def qfloor (q : ℚ) : ℤ := Int.fdiv q.num (q.den : ℤ)

/-- Python `abs` on rationals. -/
def qabs (q : ℚ) : ℚ := if q < 0 then -q else q

/-- One word as returned by `page.get_text("words")`: bounding box
`(x0, y0, x1, y1)` in page points and the text (`w[4]` in the tuple). -/
structure Word where
  x0 : ℚ
  y0 : ℚ
  x1 : ℚ
  y1 : ℚ
  text : String
deriving Repr, DecidableEq

/-- `w[0] <= mx <= w[2] and w[1] <= my <= w[3]`: exact containment test of
phase 1 of `get_word_index_at`. -/
def containsPt (w : Word) (mx my : ℚ) : Bool :=
  decide (w.x0 ≤ mx) && decide (mx ≤ w.x1) && decide (w.y0 ≤ my) && decide (my ≤ w.y1)

/-- Manhattan distance between the center of a word box and the query
point, as computed in phase 2 of `get_word_index_at`. -/
def centerDist (w : Word) (mx my : ℚ) : ℚ :=
  qabs ((w.x0 + w.x1) / 2 - mx) + qabs ((w.y0 + w.y1) / 2 - my)

/-- Phase 1 of `get_word_index_at`: the first (ordinal-order) word whose
box contains the point; `k` is the ordinal of the head of `ws`. -/
def exactIdx (mx my : ℚ) : List Word → ℕ → Option ℕ
  | [], _ => none
  | w :: ws, k => if containsPt w mx my then some k else exactIdx mx my ws (k + 1)

/-- Phase 2 of `get_word_index_at`: the scan tracking `closest_idx` and
`min_dist` (`none` models the initial `float('inf')`), iterating in
ordinal order and updating on strict `<` only. -/
def closestScan (mx my : ℚ) : List Word → ℕ → ℤ → Option ℚ → ℤ × Option ℚ
  | [], _, ci, md => (ci, md)
  | w :: ws, k, ci, md =>
    let d := centerDist w mx my
    if (match md with | none => true | some m => decide (d < m)) then
      closestScan mx my ws (k + 1) (k : ℤ) (some d)
    else
      closestScan mx my ws (k + 1) ci md

/-- `PDFPageLabel.get_word_index_at`: hit-test of a click position `(px, py)`
(widget pixels, divided by the zoom to obtain page points).  Returns the
word index or `-1`.  Phase 1 is exact containment; phase 2 falls back to
the nearest box center by Manhattan distance, accepted only when the
minimum distance is strictly below 100. -/
def get_word_index_at (zoom : ℚ) (words : List Word) (px py : ℚ) : ℤ :=
  if words = [] then -1
  else
    let mx := px / zoom
    let my := py / zoom
    match exactIdx mx my words 0 with
    | some i => (i : ℤ)
    | none =>
      match closestScan mx my words 0 (-1) none with
      | (ci, some d) => if d < 100 then ci else -1
      | (_, none) => -1

/-- The selection state of one `PDFPageLabel`: `caret_index`,
`anchor_index` (both `-1` when unset) and the caret blink flag. -/
structure SelState where
  caret : ℤ
  anchor : ℤ
  caretVisible : Bool
deriving Repr, DecidableEq

/-- The state at `PDFPageLabel.__init__`: no caret, no anchor, caret
invisible. -/
def initSel : SelState := ⟨-1, -1, false⟩

/-- Arrow keys handled by `PDFPageLabel.keyPressEvent`. -/
inductive NavKey where
  | left
  | right
  | up
  | down
deriving Repr, DecidableEq

/-- The input events of the selection subsystem that mutate selection
state: a left-button press, a drag with the left button held, and an
arrow-key press; `shift` records whether the modifier set equals
`ShiftModifier`. -/
inductive PageEvent where
  | press (px py : ℚ) (shift : Bool)
  | drag (px py : ℚ)
  | key (k : NavKey) (shift : Bool)
deriving Repr, DecidableEq

/-- `PDFPageLabel.mousePressEvent` (left button): hit-test the position;
on a hit, either extend from an existing anchor (shift held) or collapse
anchor and caret to the hit index; on a miss, leave the state unchanged. -/
def mousePressEvent (zoom : ℚ) (words : List Word) (px py : ℚ) (shift : Bool)
    (s : SelState) : SelState :=
  let idx := get_word_index_at zoom words px py
  if idx ≠ -1 then
    if shift && decide (s.anchor ≠ -1) then
      { s with caret := idx, caretVisible := true }
    else
      { caret := idx, anchor := idx, caretVisible := true }
  else s

/-- `PDFPageLabel.mouseMoveEvent` with the left button held: move the
caret to the hit index when it differs; the anchor never moves. -/
def mouseMoveEvent (zoom : ℚ) (words : List Word) (px py : ℚ) (s : SelState) : SelState :=
  let idx := get_word_index_at zoom words px py
  if idx ≠ -1 && decide (idx ≠ s.caret) then
    { s with caret := idx, caretVisible := true }
  else s

/-- The clamped navigation target of `PDFPageLabel.keyPressEvent`:
`max(0, caret-1)`, `min(len-1, caret+1)`, and the fixed stride of 10 for
Up/Down. -/
def navTarget (words : List Word) (k : NavKey) (caret : ℤ) : ℤ :=
  match k with
  | .left => max 0 (caret - 1)
  | .right => min ((words.length : ℤ) - 1) (caret + 1)
  | .up => max 0 (caret - 10)
  | .down => min ((words.length : ℤ) - 1) (caret + 10)

/-- `PDFPageLabel.keyPressEvent` for an arrow key: no-op on an empty word
list; otherwise compute the clamped target, and only if it differs from
the current caret move the caret, snap the anchor to it when shift is not
held, and force the caret visible. -/
def keyPressEvent (words : List Word) (k : NavKey) (shift : Bool) (s : SelState) : SelState :=
  if words = [] then s
  else
    let new := navTarget words k s.caret
    if new ≠ s.caret then
      { caret := new, anchor := if shift then s.anchor else new, caretVisible := true }
    else s

/-- One selection-subsystem event step on a page with word list `words`. -/
def stepEvent (zoom : ℚ) (words : List Word) (s : SelState) : PageEvent → SelState
  | .press px py shift => mousePressEvent zoom words px py shift s
  | .drag px py => mouseMoveEvent zoom words px py s
  | .key k shift => keyPressEvent words k shift s

/-- The selection state reached from the initial state by a sequence of
pointer-press, drag and keyboard events. -/
def runEvents (zoom : ℚ) (words : List Word) (evs : List PageEvent) : SelState :=
  evs.foldl (stepEvent zoom words) initSel

/-- Python slice `l[a:b]` for the nonnegative bounds produced by
`copy_selection` (`a = min >= 0`, `b = max+1 >= 1`). -/
def pySlice (l : List Word) (a b : ℤ) : List Word :=
  (l.take b.toNat).drop a.toNat

/-- `PDFPageLabel.copy_selection`: a no-op (returns `none`, nothing is
written to the clipboard) when anchor or caret is `-1`; otherwise the
texts of `words[min..max]` joined by single spaces. -/
def copy_selection (words : List Word) (s : SelState) : Option String :=
  if s.anchor = -1 ∨ s.caret = -1 then none
  else
    some (String.intercalate " "
      ((pySlice words (min s.anchor s.caret) (max s.anchor s.caret + 1)).map Word.text))

/-- The invariant claim C3 states for the selection indices: both `-1`,
or both valid ordinals of the page's word list. -/
def bothNoneOrBothValid (words : List Word) (s : SelState) : Prop :=
  (s.anchor = -1 ∧ s.caret = -1) ∨
    (0 ≤ s.anchor ∧ s.anchor < (words.length : ℤ) ∧
     0 ≤ s.caret ∧ s.caret < (words.length : ℤ))

instance (words : List Word) (s : SelState) : Decidable (bothNoneOrBothValid words s) := by
  unfold bothNoneOrBothValid; infer_instance

/-- One page label of `JustReadApp.page_labels` as the scheduler sees it:
its index, natural size in points, position and size inside the container
(`label.y()`, `label.width()`, `label.height()`), the `is_rendered` flag,
the pixmap (tagged with the zoom and page it was rasterized at; `none`
after `clear_single_page`), and whether the placeholder style is set. -/
structure PageEntry where
  pageIndex : ℕ
  natW : ℚ
  natH : ℚ
  top : ℤ
  width : ℤ
  height : ℤ
  rendered : Bool
  bitmap : Option (ℚ × ℕ)
  placeholder : Bool
deriving Repr, DecidableEq

/-- `is_visible = (label_y + label_height > min_y) and (label_y < max_y)`. -/
def isVisible (minY maxY : ℤ) (e : PageEntry) : Bool :=
  decide (e.top + e.height > minY) && decide (e.top < maxY)

/-- The outcome of one `update_page_visibility` call: the label list after
the pass, how many `render_single_page` and `clear_single_page` calls were
made, and whether an exception escaped (aborting the loop). -/
structure PassResult where
  entries : List PageEntry
  renders : ℕ
  evicts : ℕ
  aborted : Bool
deriving Repr, DecidableEq

/-- `JustReadApp.render_single_page`: rasterize at the current zoom and
install the bitmap, set `is_rendered = True`, drop the placeholder style.
`ras` returning `none` models `load_page`/`get_pixmap` raising before any
label mutation. -/
def render_single_page (ras : ℕ → ℚ → Option (ℚ × ℕ)) (zoom : ℚ)
    (e : PageEntry) : Option PageEntry :=
  match ras e.pageIndex zoom with
  | some bm => some { e with bitmap := some bm, rendered := true, placeholder := false }
  | none => none

/-- `JustReadApp.clear_single_page`: clear the pixmap, reset
`is_rendered`, restore the placeholder style.  Geometry is untouched. -/
def clear_single_page (e : PageEntry) : PageEntry :=
  { e with bitmap := none, rendered := false, placeholder := true }

/-- The `for label in self.page_labels` loop of `update_page_visibility`.
A raised rasterization exception (`render_single_page` = `none`) leaves
the failing label and every following label untouched and aborts the
loop, exactly as an uncaught Python exception would. -/
def visLoop (ras : ℕ → ℚ → Option (ℚ × ℕ)) (zoom : ℚ) (minY maxY : ℤ) :
    List PageEntry → PassResult
  | [] => ⟨[], 0, 0, false⟩
  | e :: es =>
    if isVisible minY maxY e then
      if !e.rendered then
        match render_single_page ras zoom e with
        | some e' =>
          let r := visLoop ras zoom minY maxY es
          ⟨e' :: r.entries, r.renders + 1, r.evicts, r.aborted⟩
        | none => ⟨e :: es, 1, 0, true⟩
      else
        let r := visLoop ras zoom minY maxY es
        ⟨e :: r.entries, r.renders, r.evicts, r.aborted⟩
    else
      if e.rendered then
        let r := visLoop ras zoom minY maxY es
        ⟨clear_single_page e :: r.entries, r.renders, r.evicts + 1, r.aborted⟩
      else
        let r := visLoop ras zoom minY maxY es
        ⟨e :: r.entries, r.renders, r.evicts, r.aborted⟩

/-- `JustReadApp.update_page_visibility` (with a document open): compute
`min_y = scroll_y - viewport_height` and
`max_y = scroll_y + viewport_height * 2` from the current viewport and
run the render/evict loop over the labels. -/
def update_page_visibility (ras : ℕ → ℚ → Option (ℚ × ℕ)) (zoom : ℚ)
    (scrollY viewportHeight : ℤ) (entries : List PageEntry) : PassResult :=
  visLoop ras zoom (scrollY - viewportHeight) (scrollY + viewportHeight * 2) entries

/-- The vertical positions a settled `QVBoxLayout` assigns to the labels:
consecutive tops separated by each label's height plus the layout
spacing, starting at the layout's top margin. -/
def relayoutFrom (spacing : ℤ) (y : ℤ) : List PageEntry → List PageEntry
  | [] => []
  | e :: es => { e with top := y } :: relayoutFrom spacing (y + e.height + spacing) es

/-- Settled layout of the page container (`setSpacing(20)` in the source;
the top content margin is the parameter `margin`). -/
def relayout (margin spacing : ℤ) (entries : List PageEntry) : List PageEntry :=
  relayoutFrom spacing margin entries

/-- The per-label body of the `apply_new_zoom` loop:
`label.setFixedSize(int(rect.width * zoom), int(rect.height * zoom))` and
`label.is_rendered = False`.  The pixmap is not touched. -/
def invalidateEntry (zoom : ℚ) (e : PageEntry) : PageEntry :=
  { e with width := pyint (e.natW * zoom), height := pyint (e.natH * zoom),
           rendered := false }

/-- `JustReadApp.apply_new_zoom` (with a document open): resize every
placeholder to `natural x zoom` and mark it unrendered, let the layout
settle, then run `update_page_visibility` once. -/
def apply_new_zoom (ras : ℕ → ℚ → Option (ℚ × ℕ)) (scrollY viewportHeight margin spacing : ℤ)
    (zoom : ℚ) (entries : List PageEntry) : PassResult :=
  update_page_visibility ras zoom scrollY viewportHeight
    (relayout margin spacing (entries.map (invalidateEntry zoom)))

/-- A rasterizer that always succeeds, producing a bitmap tagged with the
zoom and page index it was rendered at. -/
def rasOk : ℕ → ℚ → Option (ℚ × ℕ) := fun i z => some (z, i)

/-- A rasterizer that raises exactly on page 0. -/
def rasFail0 : ℕ → ℚ → Option (ℚ × ℕ) := fun i z => if i = 0 then none else some (z, i)

/-! ### Exact IEEE-754 binary64 model for the zoom factor

`self.zoom` is a Python float, so `self.zoom -= 0.2` and the comparison
`self.zoom > 0.4` follow binary64 semantics.  `fp64round` is exact
round-to-nearest, ties-to-even, correct for every positive rational in
the normal range `[2^-60, 2^60)` (amply covering every zoom value the
program can reach); binary64 subtraction of representable operands is the
rounding of the exact difference. -/

/-- `2 ^ 60` as a rational. -/
def twoPow60 : ℚ := 1152921504606846976

/-- Fuel-driven base-2 logarithm on naturals (structural recursion, so
the kernel can evaluate it; 130 units of fuel cover every value used). -/
def log2fuel : ℕ → ℕ → ℕ
  | 0, _ => 0
  | f + 1, n => if n ≤ 1 then 0 else log2fuel f (n / 2) + 1

/-- The binary exponent `e` with `2^e ≤ q < 2^(e+1)`, for
`q ∈ [2^-60, 2^60)`. -/
def expOf (q : ℚ) : ℤ := (log2fuel 130 (qfloor (q * twoPow60)).toNat : ℤ) - 60

/-- `2 ^ e` as a rational, for an integer exponent. -/
def pow2z (e : ℤ) : ℚ :=
  if 0 ≤ e then ((2 ^ e.toNat : ℕ) : ℚ) else 1 / ((2 ^ (-e).toNat : ℕ) : ℚ)

/-- Round a rational to the nearest integer, ties to even. -/
def rne (q : ℚ) : ℤ :=
  let f := qfloor q
  let r := q - (f : ℚ)
  if r < 1 / 2 then f
  else if 1 / 2 < r then f + 1
  else if f % 2 = 0 then f else f + 1

/-- Round a positive rational in the binary64 normal range to the nearest
binary64 value (53-bit significand, round to nearest, ties to even). -/
def fp64round (q : ℚ) : ℚ :=
  if q ≤ 0 then 0
  else ((rne (q * pow2z (52 - expOf q)) : ℤ) : ℚ) * pow2z (expOf q - 52)

/-- The binary64 value of the literal `0.2`. -/
def fl02 : ℚ := fp64round (1 / 5)

/-- The binary64 value of the literal `0.4`. -/
def fl04 : ℚ := fp64round (2 / 5)

/-- `JustReadApp.zoom_out` acting on the zoom factor, with Python float
semantics: `if self.zoom > 0.4: self.zoom -= 0.2` (the subtraction is
binary64, i.e. the exact difference rounded). -/
def zoom_out (z : ℚ) : ℚ := if fl04 < z then fp64round (z - fl02) else z

/-- `n` successive `zoom_out` calls. -/
def zoom_out_iter : ℕ → ℚ → ℚ
  | 0, z => z
  | n + 1, z => zoom_out_iter n (zoom_out z)

/-! ### Concrete instances used by counterexamples and witnesses -/

/-- A page with a single word near the origin. -/
def words1 : List Word := [⟨0, 0, 50, 20, "Hello"⟩]

/-- The word list of spec Scenario B:
`[("Hello",0,0,50,20), ("World",60,0,110,20)]`. -/
def scenarioWords : List Word := [⟨0, 0, 50, 20, "Hello"⟩, ⟨60, 0, 110, 20, "World"⟩]

/-- A single very wide word: its box contains `(0, 10)` although its
center is 200 points away. -/
def bigWords : List Word := [⟨0, 0, 400, 20, "big"⟩]

/-- An unrendered placeholder entry for tests: page `i`, natural size
600 x 800, top `t`. -/
def mkPlaceholder (i : ℕ) (t : ℤ) : PageEntry :=
  ⟨i, 600, 800, t, 600, 800, false, none, true⟩

/-- The invariant the selection state machine actually maintains: the
caret is `-1` or a valid ordinal, and the anchor is `-1` or a valid
ordinal with a non-`-1` caret alongside it.  (The converse — a valid
caret forcing a valid anchor — is refuted by `runEvents`.) -/
def selIndicesOk (words : List Word) (s : SelState) : Prop :=
  (s.caret = -1 ∨ (0 ≤ s.caret ∧ s.caret < (words.length : ℤ))) ∧
  (s.anchor = -1 ∨ (0 ≤ s.anchor ∧ s.anchor < (words.length : ℤ) ∧ s.caret ≠ -1))

/-- Three fresh placeholders for pages of natural size 600 x 900 (tops
still unset; the layout assigns them). -/
def c8Pages : List PageEntry :=
  [⟨0, 600, 900, 0, 600, 900, false, none, true⟩,
   ⟨1, 600, 900, 0, 600, 900, false, none, true⟩,
   ⟨2, 600, 900, 0, 600, 900, false, none, true⟩]

/-- The document of `c8Pages` opened at zoom 1 (layout with no top
margin, spacing 20) after one settled visibility pass with scroll 0 and
viewport height 1000: all three pages are in the window and rendered. -/
def c8Start : List PageEntry :=
  (update_page_visibility rasOk 1 0 1000 (relayout 0 20 c8Pages)).entries

/-!
## Theorems

Batteries marks the rational field operations irreducible; the local
attribute below restores definitional evaluation so that concrete runs of
the embedded program can be settled by `decide`.
-/

section

attribute [local semireducible] Rat.mul Rat.inv Rat.add Rat.sub

set_option maxRecDepth 100000

/-- Phase 1 finds nothing when no word box contains the point. -/
theorem exactIdx_eq_none (mx my : ℚ) (ws : List Word)
    (h : ∀ w ∈ ws, containsPt w mx my = false) : ∀ k, exactIdx mx my ws k = none := by
  induction ws with
  | nil => intro k; rfl
  | cons w ws ih =>
    intro k
    have hw : containsPt w mx my = false := h w (by simp)
    have hrest := ih (fun w' hw' => h w' (by simp [hw']))
    simp [exactIdx, hw, hrest]

/-- A phase-1 hit is an ordinal of the scanned suffix. -/
theorem exactIdx_lt (mx my : ℚ) (ws : List Word) :
    ∀ k i, exactIdx mx my ws k = some i → k ≤ i ∧ i < k + ws.length := by
  induction ws with
  | nil => intro k i h; simp [exactIdx] at h
  | cons w ws ih =>
    intro k i h
    by_cases hw : containsPt w mx my = true
    · simp [exactIdx, hw] at h
      simp only [List.length_cons]
      omega
    · have hw' : containsPt w mx my = false := by simpa using hw
      simp [exactIdx, hw'] at h
      have := ih (k + 1) i h
      simp only [List.length_cons]
      omega

/-- The phase-2 scan tracks a genuine witness: whenever `min_dist` is a
real distance, `closest_idx` is an ordinal of the full list `f` whose
word's center lies at exactly that distance. -/
theorem closestScan_spec (mx my : ℚ) (f : List Word) (ws : List Word) :
    ∀ (k : ℕ) (ci : ℤ) (md : Option ℚ),
      f.drop k = ws →
      (∀ d, md = some d → ∃ i : ℕ, ci = (i : ℤ) ∧
          ∃ w, f.get? i = some w ∧ centerDist w mx my = d) →
      ∀ d, (closestScan mx my ws k ci md).2 = some d →
        ∃ i : ℕ, (closestScan mx my ws k ci md).1 = (i : ℤ) ∧
          ∃ w, f.get? i = some w ∧ centerDist w mx my = d := by
  induction ws with
  | nil => intro k ci md _ hinv d hd; exact hinv d hd
  | cons w ws ih =>
    intro k ci md hdrop hinv d hd
    have hget : f.get? k = some w := by
      have h0 : (f.drop k).get? 0 = some w := by rw [hdrop]; rfl
      simpa [List.get?_drop] using h0
    have hdrop' : f.drop (k + 1) = ws := by
      have h1 : (f.drop k).drop 1 = ws := by rw [hdrop]; rfl
      rwa [List.drop_drop] at h1
    rcases md with _ | m
    · rw [show closestScan mx my (w :: ws) k ci none =
            closestScan mx my ws (k + 1) (k : ℤ) (some (centerDist w mx my)) from rfl]
        at hd ⊢
      refine ih (k + 1) (k : ℤ) _ hdrop' ?_ d hd
      intro d' hd'
      exact ⟨k, rfl, w, hget, by simpa using hd'⟩
    · by_cases hlt : centerDist w mx my < m
      · rw [show closestScan mx my (w :: ws) k ci (some m) =
              closestScan mx my ws (k + 1) (k : ℤ) (some (centerDist w mx my)) from by
            simp [closestScan, hlt]] at hd ⊢
        refine ih (k + 1) (k : ℤ) _ hdrop' ?_ d hd
        intro d' hd'
        exact ⟨k, rfl, w, hget, by simpa using hd'⟩
      · rw [show closestScan mx my (w :: ws) k ci (some m) =
              closestScan mx my ws (k + 1) ci (some m) from by
            simp [closestScan, hlt]] at hd ⊢
        exact ih (k + 1) ci _ hdrop' hinv d hd

/-- If every center of the scanned suffix is at distance at least `c` and
the incoming minimum is too, the final minimum is at least `c`. -/
theorem closestScan_ge (mx my c : ℚ) (ws : List Word) :
    ∀ (k : ℕ) (ci : ℤ) (md : Option ℚ),
      (∀ w ∈ ws, c ≤ centerDist w mx my) →
      (∀ d, md = some d → c ≤ d) →
      ∀ d, (closestScan mx my ws k ci md).2 = some d → c ≤ d := by
  induction ws with
  | nil => intro k ci md _ hmd d hd; exact hmd d hd
  | cons w ws ih =>
    intro k ci md hws hmd d hd
    have hw : c ≤ centerDist w mx my := hws w (by simp)
    have hws' : ∀ w' ∈ ws, c ≤ centerDist w' mx my := fun w' hw' => hws w' (by simp [hw'])
    rcases md with _ | m
    · rw [show closestScan mx my (w :: ws) k ci none =
            closestScan mx my ws (k + 1) (k : ℤ) (some (centerDist w mx my)) from rfl] at hd
      refine ih (k + 1) (k : ℤ) _ hws' ?_ d hd
      intro d' hd'
      have he : centerDist w mx my = d' := by simpa using hd'
      exact he ▸ hw
    · by_cases hlt : centerDist w mx my < m
      · rw [show closestScan mx my (w :: ws) k ci (some m) =
              closestScan mx my ws (k + 1) (k : ℤ) (some (centerDist w mx my)) from by
            simp [closestScan, hlt]] at hd
        refine ih (k + 1) (k : ℤ) _ hws' ?_ d hd
        intro d' hd'
        have he : centerDist w mx my = d' := by simpa using hd'
        exact he ▸ hw
      · rw [show closestScan mx my (w :: ws) k ci (some m) =
              closestScan mx my ws (k + 1) ci (some m) from by
            simp [closestScan, hlt]] at hd
        exact ih (k + 1) ci _ hws' hmd d hd

/-- The scan only ever moves `closest_idx` to ordinals of the list. -/
theorem closestScan_le (mx my : ℚ) (n : ℕ) (ws : List Word) :
    ∀ (k : ℕ) (ci : ℤ) (md : Option ℚ),
      k + ws.length ≤ n →
      (ci = -1 ∨ (0 ≤ ci ∧ ci < (n : ℤ))) →
      ((closestScan mx my ws k ci md).1 = -1 ∨
        (0 ≤ (closestScan mx my ws k ci md).1 ∧
          (closestScan mx my ws k ci md).1 < (n : ℤ))) := by
  induction ws with
  | nil => intro k ci md _ hci; exact hci
  | cons w ws ih =>
    intro k ci md hk hci
    have hk' : (k + 1) + ws.length ≤ n := by simp only [List.length_cons] at hk; omega
    have hkΩ : ((k : ℤ) = -1 ∨ (0 ≤ (k : ℤ) ∧ (k : ℤ) < (n : ℤ))) := by
      right
      constructor
      · exact Int.ofNat_nonneg k
      · have : k < n := by simp only [List.length_cons] at hk; omega
        exact_mod_cast this
    rcases md with _ | m
    · rw [show closestScan mx my (w :: ws) k ci none =
            closestScan mx my ws (k + 1) (k : ℤ) (some (centerDist w mx my)) from rfl]
      exact ih (k + 1) (k : ℤ) _ hk' hkΩ
    · by_cases hlt : centerDist w mx my < m
      · rw [show closestScan mx my (w :: ws) k ci (some m) =
              closestScan mx my ws (k + 1) (k : ℤ) (some (centerDist w mx my)) from by
            simp [closestScan, hlt]]
        exact ih (k + 1) (k : ℤ) _ hk' hkΩ
      · rw [show closestScan mx my (w :: ws) k ci (some m) =
              closestScan mx my ws (k + 1) ci (some m) from by
            simp [closestScan, hlt]]
        exact ih (k + 1) ci _ hk' hci

/-- When phase 1 misses, `get_word_index_at` is the phase-2 fallback. -/
theorem hit_eq_scan (zoom : ℚ) (words : List Word) (px py : ℚ) (hw : words ≠ [])
    (hex : exactIdx (px / zoom) (py / zoom) words 0 = none) :
    get_word_index_at zoom words px py =
      (match closestScan (px / zoom) (py / zoom) words 0 (-1) none with
       | (ci, some d) => if d < 100 then ci else -1
       | (_, none) => -1) := by
  simp [get_word_index_at, hw, hex]

/-- A hit-test result is `-1` or a valid ordinal of the word list. -/
theorem hit_cases (zoom : ℚ) (words : List Word) (px py : ℚ) :
    get_word_index_at zoom words px py = -1 ∨
      (0 ≤ get_word_index_at zoom words px py ∧
        get_word_index_at zoom words px py < (words.length : ℤ)) := by
  by_cases hw : words = []
  · left; simp [get_word_index_at, hw]
  · cases hex : exactIdx (px / zoom) (py / zoom) words 0 with
    | some i =>
      right
      have hi := exactIdx_lt (px / zoom) (py / zoom) words 0 i hex
      have hr : get_word_index_at zoom words px py = (i : ℤ) := by
        simp [get_word_index_at, hw, hex]
      rw [hr]
      constructor
      · exact Int.ofNat_nonneg i
      · exact_mod_cast (by omega : i < words.length)
    | none =>
      rw [hit_eq_scan zoom words px py hw hex]
      rcases hscan : closestScan (px / zoom) (py / zoom) words 0 (-1) none with ⟨ci, md⟩
      have hb := closestScan_le (px / zoom) (py / zoom) words.length words 0 (-1) none
        (by omega) (Or.inl rfl)
      rw [hscan] at hb
      rcases md with _ | d
      · left; rfl
      · by_cases hd : d < 100
        · simpa [hd] using hb
        · left; simp [hd]

/-- C5 (amended): when no word box contains the (un-zoomed) query point,
`get_word_index_at` returns a word only if its box-center Manhattan
distance from the point is strictly below 100, and returns `-1` when
every center is at distance 100 or more.  (A word returned by phase-1
exact containment may lie at center distance 100 or more, which is why
the claim is restricted to the fallback phase.) -/
theorem hit_fallback_bound (zoom : ℚ) (words : List Word) (px py : ℚ)
    (hnc : ∀ w ∈ words, containsPt w (px / zoom) (py / zoom) = false) :
    (get_word_index_at zoom words px py ≠ -1 →
      ∃ i : ℕ, get_word_index_at zoom words px py = (i : ℤ) ∧
        ∃ w, words.get? i = some w ∧ centerDist w (px / zoom) (py / zoom) < 100) ∧
    ((∀ w ∈ words, ¬ centerDist w (px / zoom) (py / zoom) < 100) →
      get_word_index_at zoom words px py = -1) := by
  by_cases hw : words = []
  · constructor
    · intro hne
      exact absurd (by simp [get_word_index_at, hw]) hne
    · intro _
      simp [get_word_index_at, hw]
  · have hex := exactIdx_eq_none (px / zoom) (py / zoom) words hnc 0
    rcases hscan : closestScan (px / zoom) (py / zoom) words 0 (-1) none with ⟨ci, md⟩
    have hr : get_word_index_at zoom words px py =
        (match ((ci, md) : ℤ × Option ℚ) with
         | (ci, some d) => if d < 100 then ci else -1
         | (_, none) => -1) := by
      rw [hit_eq_scan zoom words px py hw hex, hscan]
    rcases md with _ | d
    · constructor
      · intro hne
        exact absurd hr hne
      · intro _
        exact hr
    · have hd2 : (closestScan (px / zoom) (py / zoom) words 0 (-1) none).2 = some d := by
        rw [hscan]
      by_cases hd : d < 100
      · simp only [hd, if_true] at hr
        have hspec := closestScan_spec (px / zoom) (py / zoom) words words 0 (-1) none rfl
          (by intro d' hd'; cases hd') d hd2
        rw [hscan] at hspec
        obtain ⟨i, hci, w, hwget, hdist⟩ := hspec
        constructor
        · intro _
          exact ⟨i, by rw [hr]; exact hci, w, hwget, by rw [hdist]; exact hd⟩
        · intro hfar
          have hge := closestScan_ge (px / zoom) (py / zoom) 100 words 0 (-1) none
            (fun w' hw' => not_lt.mp (hfar w' hw')) (by intro d' hd'; cases hd') d hd2
          exact absurd hd (not_lt.mpr hge)
      · simp only [hd, if_false] at hr
        constructor
        · intro hne
          exact absurd hr hne
        · intro _
          exact hr

/-- C5 witness: Scenario B's word list and click point instantiate the
fallback bound (neither box contains `(55, 10)`). -/
theorem hit_fallback_bound_witness :
    (get_word_index_at 1 scenarioWords 55 10 ≠ -1 →
      ∃ i : ℕ, get_word_index_at 1 scenarioWords 55 10 = (i : ℤ) ∧
        ∃ w, scenarioWords.get? i = some w ∧ centerDist w (55 / 1) (10 / 1) < 100) ∧
    ((∀ w ∈ scenarioWords, ¬ centerDist w (55 / 1) (10 / 1) < 100) →
      get_word_index_at 1 scenarioWords 55 10 = -1) :=
  hit_fallback_bound 1 scenarioWords 55 10 (by decide)

/-- C5 counterexample: a click inside a 400-point-wide word is resolved
to that word by phase-1 containment although its box center is 200 > 100
points away — so "any returned word's center Manhattan distance is
strictly below 100" is false as stated. -/
theorem hit_contained_beyond_bound :
    get_word_index_at 1 bigWords 0 10 = 0 ∧
    bigWords.get? 0 = some ⟨0, 0, 400, 20, "big"⟩ ∧
    ¬ centerDist ⟨0, 0, 400, 20, "big"⟩ (0 / 1) (10 / 1) < 100 := by decide

/-- C6 counterexample: with Scenario B's word list, the hit-test at
`(55, 10)` does not resolve to "World" (ordinal 1). -/
theorem scenarioB_not_world : get_word_index_at 1 scenarioWords 55 10 ≠ 1 := by decide

/-- C6 (amended): at `(55, 10)` both centers are at Manhattan distance
exactly 30, and the strict-less-than scan in ordinal order keeps the
first-encountered minimum, so the hit-test resolves to "Hello"
(ordinal 0), not "World". -/
theorem scenarioB_tie_first_minimum :
    get_word_index_at 1 scenarioWords 55 10 = 0 ∧
    (scenarioWords.get? 0).map Word.text = some "Hello" ∧
    centerDist ⟨0, 0, 50, 20, "Hello"⟩ (55 / 1) (10 / 1) = 30 ∧
    centerDist ⟨60, 0, 110, 20, "World"⟩ (55 / 1) (10 / 1) = 30 := by decide

/-- Every selection event preserves `selIndicesOk`. -/
theorem stepEvent_ok (zoom : ℚ) (words : List Word) (s : SelState) (ev : PageEvent)
    (h : selIndicesOk words s) : selIndicesOk words (stepEvent zoom words s ev) := by
  have hc := h.1
  have ha := h.2
  cases ev with
  | press px py shift =>
    have hhit := hit_cases zoom words px py
    show selIndicesOk words (mousePressEvent zoom words px py shift s)
    simp only [mousePressEvent]
    split_ifs with h1 h2
    · have hanchor : s.anchor ≠ -1 := by
        simp only [Bool.and_eq_true, decide_eq_true_eq] at h2
        exact h2.2
      unfold selIndicesOk
      dsimp only
      omega
    · unfold selIndicesOk
      dsimp only
      omega
    · exact h
  | drag px py =>
    have hhit := hit_cases zoom words px py
    show selIndicesOk words (mouseMoveEvent zoom words px py s)
    simp only [mouseMoveEvent]
    split_ifs with h1
    · simp only [Bool.and_eq_true, decide_eq_true_eq] at h1
      unfold selIndicesOk
      dsimp only
      omega
    · exact h
  | key k shift =>
    show selIndicesOk words (keyPressEvent words k shift s)
    simp only [keyPressEvent]
    by_cases h1 : words = []
    · rw [if_pos h1]
      exact h
    · rw [if_neg h1]
      have hlen : 0 < words.length := List.length_pos.mpr h1
      have hcast : (1 : ℤ) ≤ (words.length : ℤ) := by exact_mod_cast hlen
      have hnav : 0 ≤ navTarget words k s.caret ∧
          navTarget words k s.caret < (words.length : ℤ) := by
        cases k <;> (simp only [navTarget]; omega)
      by_cases h2 : navTarget words k s.caret ≠ s.caret
      · rw [if_pos h2]
        unfold selIndicesOk
        dsimp only
        by_cases h3 : shift = true
        · rw [if_pos h3]
          omega
        · rw [if_neg h3]
          omega
      · rw [if_neg h2]
        exact h

/-- The invariant holds in every state reachable from the initial
selection state. -/
theorem runEvents_ok (zoom : ℚ) (words : List Word) (evs : List PageEvent) :
    selIndicesOk words (runEvents zoom words evs) := by
  suffices hgen : ∀ s, selIndicesOk words s →
      selIndicesOk words (evs.foldl (stepEvent zoom words) s) from
    hgen initSel ⟨Or.inl rfl, Or.inl rfl⟩
  induction evs with
  | nil => intro s hs; exact hs
  | cons ev evs ih =>
    intro s hs
    exact ih _ (stepEvent_ok zoom words s ev hs)

/-- C3 (amended): in every state reachable by pointer-press, drag and
keyboard events, the caret index is `-1` or a valid word ordinal, the
anchor index is `-1` or a valid word ordinal, and a non-`-1` anchor is
always accompanied by a non-`-1` caret.  (The original claim's "both
none or both valid" fails: a valid caret with anchor `-1` is reachable,
see the counterexample.) -/
theorem selection_indices_ok (zoom : ℚ) (words : List Word) (evs : List PageEvent) :
    ((runEvents zoom words evs).caret = -1 ∨
      (0 ≤ (runEvents zoom words evs).caret ∧
        (runEvents zoom words evs).caret < (words.length : ℤ))) ∧
    ((runEvents zoom words evs).anchor = -1 ∨
      (0 ≤ (runEvents zoom words evs).anchor ∧
        (runEvents zoom words evs).anchor < (words.length : ℤ) ∧
        (runEvents zoom words evs).caret ≠ -1)) :=
  runEvents_ok zoom words evs

/-- C3 counterexample: a press on empty space (no hit) followed by a
shift-modified Left from the Idle state yields caret 0 with anchor still
`-1` — one index "none" and the other valid. -/
theorem selection_indices_mixed_state :
    ¬ bothNoneOrBothValid words1
        (runEvents 1 words1 [.press 1000 1000 false, .key .left true]) ∧
    (runEvents 1 words1 [.press 1000 1000 false, .key .left true]).caret = 0 ∧
    (runEvents 1 words1 [.press 1000 1000 false, .key .left true]).anchor = -1 := by decide

/-- C4 counterexample: anchor 0, caret 1 (a shift-extended Ranged
selection whose caret sits at the right boundary); a Right arrow without
shift leaves the caret clamped in place, the update block is skipped, and
the anchor does not snap to the caret. -/
theorem nonshift_nav_at_boundary_keeps_range :
    (runEvents 1 scenarioWords
      [.press 10 10 false, .key .right true, .key .right false]).anchor = 0 ∧
    (runEvents 1 scenarioWords
      [.press 10 10 false, .key .right true, .key .right false]).caret = 1 ∧
    (runEvents 1 scenarioWords
      [.press 10 10 false, .key .right true, .key .right false]).anchor ≠
      (runEvents 1 scenarioWords
        [.press 10 10 false, .key .right true, .key .right false]).caret := by decide

/-- C4 (amended): after a non-shift Left/Right/Up/Down whose clamped
target differs from the current caret, anchor equals caret; when the
clamped target equals the current caret (caret already at a boundary),
the event is a complete no-op, so a Ranged selection persists. -/
theorem nonshift_nav_collapses_when_moved (words : List Word) (s : SelState) (k : NavKey)
    (h : words ≠ []) :
    (navTarget words k s.caret ≠ s.caret →
      (keyPressEvent words k false s).anchor = (keyPressEvent words k false s).caret) ∧
    (navTarget words k s.caret = s.caret → keyPressEvent words k false s = s) := by
  constructor
  · intro hne
    simp only [keyPressEvent]
    rw [if_neg h, if_pos hne]
    simp
  · intro heq
    simp only [keyPressEvent]
    rw [if_neg h, if_neg (by simp [heq])]

/-- C4 witness: a concrete instantiation of the amended collapse
property at caret 0 on Scenario B's word list. -/
theorem nonshift_nav_collapses_witness :
    (navTarget scenarioWords .right (0 : ℤ) ≠ 0 →
      (keyPressEvent scenarioWords .right false ⟨0, 0, true⟩).anchor =
        (keyPressEvent scenarioWords .right false ⟨0, 0, true⟩).caret) ∧
    (navTarget scenarioWords .right (0 : ℤ) = 0 →
      keyPressEvent scenarioWords .right false ⟨0, 0, true⟩ = ⟨0, 0, true⟩) :=
  nonshift_nav_collapses_when_moved scenarioWords ⟨0, 0, true⟩ .right (by decide)

/-- C2: for any valid anchor/caret pair the copy operation emits exactly
the texts of the words at ordinals `min..max` inclusive, joined by
single spaces, in ordinal order — independent of which index is larger —
and it is a silent no-op in the Idle state. -/
theorem copy_selection_spec (words : List Word) (a c : ℤ) (cv cv' : Bool)
    (h1 : 0 ≤ a) (h2 : a < (words.length : ℤ))
    (h3 : 0 ≤ c) (h4 : c < (words.length : ℤ)) :
    (∃ l : List String,
      copy_selection words ⟨c, a, cv⟩ = some (String.intercalate " " l) ∧
      l.length = (max a c - min a c + 1).toNat ∧
      ∀ j : ℕ, j < l.length →
        l.get? j = (words.get? ((min a c).toNat + j)).map Word.text) ∧
    copy_selection words ⟨-1, -1, cv'⟩ = none := by
  constructor
  · have hlen : ((pySlice words (min a c) (max a c + 1)).map Word.text).length =
        (max a c - min a c + 1).toNat := by
      unfold pySlice
      rw [List.length_map, List.length_drop, List.length_take]
      omega
    refine ⟨(pySlice words (min a c) (max a c + 1)).map Word.text, ?_, hlen, ?_⟩
    · unfold copy_selection
      rw [if_neg (by dsimp only; omega)]
    · intro j hj
      rw [hlen] at hj
      unfold pySlice
      rw [List.get?_map, List.get?_drop, List.get?_take (by omega)]
  · simp [copy_selection]

/-- C2 witness: Scenario C — anchor 0, caret 1 on Scenario B's word
list. -/
theorem copy_selection_spec_witness :
    (∃ l : List String,
      copy_selection scenarioWords ⟨1, 0, false⟩ = some (String.intercalate " " l) ∧
      l.length = (max (0 : ℤ) 1 - min (0 : ℤ) 1 + 1).toNat ∧
      ∀ j : ℕ, j < l.length →
        l.get? j = (scenarioWords.get? ((min (0 : ℤ) 1).toNat + j)).map Word.text) ∧
    copy_selection scenarioWords ⟨-1, -1, true⟩ = none :=
  copy_selection_spec scenarioWords 0 1 false true (by decide) (by decide)
    (by decide) (by decide)

/-- A successful `render_single_page` sets the flag and leaves the
geometry untouched. -/
theorem render_fields (ras : ℕ → ℚ → Option (ℚ × ℕ)) (zoom : ℚ) (e e2 : PageEntry)
    (h : render_single_page ras zoom e = some e2) :
    e2.rendered = true ∧ e2.top = e.top ∧ e2.height = e.height := by
  unfold render_single_page at h
  cases hbm : ras e.pageIndex zoom with
  | none => rw [hbm] at h; cases h
  | some bm =>
    rw [hbm] at h
    cases h
    exact ⟨rfl, rfl, rfl⟩

/-- After a non-aborted loop, every resulting label's `is_rendered` flag
agrees with its visibility. -/
theorem visLoop_rendered_iff (ras : ℕ → ℚ → Option (ℚ × ℕ)) (zoom : ℚ) (minY maxY : ℤ)
    (es : List PageEntry) :
    (visLoop ras zoom minY maxY es).aborted = false →
    ∀ e ∈ (visLoop ras zoom minY maxY es).entries,
      e.rendered = isVisible minY maxY e := by
  induction es with
  | nil =>
    intro _ e he
    simp [visLoop] at he
  | cons e es ih =>
    intro hab e' he'
    cases hv : isVisible minY maxY e with
    | true =>
      cases hr : e.rendered with
      | true =>
        have heq : visLoop ras zoom minY maxY (e :: es) =
            ⟨e :: (visLoop ras zoom minY maxY es).entries,
             (visLoop ras zoom minY maxY es).renders,
             (visLoop ras zoom minY maxY es).evicts,
             (visLoop ras zoom minY maxY es).aborted⟩ := by
          simp [visLoop, hv, hr]
        rw [heq] at hab he'
        rcases List.mem_cons.mp he' with rfl | hmem
        · rw [hr, hv]
        · exact ih hab e' hmem
      | false =>
        cases hrd : render_single_page ras zoom e with
        | none =>
          have heq : visLoop ras zoom minY maxY (e :: es) = ⟨e :: es, 1, 0, true⟩ := by
            simp [visLoop, hv, hr, hrd]
          rw [heq] at hab
          cases hab
        | some e2 =>
          have heq : visLoop ras zoom minY maxY (e :: es) =
              ⟨e2 :: (visLoop ras zoom minY maxY es).entries,
               (visLoop ras zoom minY maxY es).renders + 1,
               (visLoop ras zoom minY maxY es).evicts,
               (visLoop ras zoom minY maxY es).aborted⟩ := by
            simp [visLoop, hv, hr, hrd]
          rw [heq] at hab he'
          rcases List.mem_cons.mp he' with rfl | hmem
          · obtain ⟨hren, htop, hht⟩ := render_fields ras zoom e e' hrd
            have hvis : isVisible minY maxY e' = isVisible minY maxY e := by
              unfold isVisible
              rw [htop, hht]
            rw [hren, hvis, hv]
          · exact ih hab e' hmem
    | false =>
      cases hr : e.rendered with
      | true =>
        have heq : visLoop ras zoom minY maxY (e :: es) =
            ⟨clear_single_page e :: (visLoop ras zoom minY maxY es).entries,
             (visLoop ras zoom minY maxY es).renders,
             (visLoop ras zoom minY maxY es).evicts + 1,
             (visLoop ras zoom minY maxY es).aborted⟩ := by
          simp [visLoop, hv, hr]
        rw [heq] at hab he'
        rcases List.mem_cons.mp he' with rfl | hmem
        · show (clear_single_page e).rendered = isVisible minY maxY (clear_single_page e)
          have hvis : isVisible minY maxY (clear_single_page e) = isVisible minY maxY e := rfl
          rw [hvis, hv]
          rfl
        · exact ih hab e' hmem
      | false =>
        have heq : visLoop ras zoom minY maxY (e :: es) =
            ⟨e :: (visLoop ras zoom minY maxY es).entries,
             (visLoop ras zoom minY maxY es).renders,
             (visLoop ras zoom minY maxY es).evicts,
             (visLoop ras zoom minY maxY es).aborted⟩ := by
          simp [visLoop, hv, hr]
        rw [heq] at hab he'
        rcases List.mem_cons.mp he' with rfl | hmem
        · rw [hr, hv]
        · exact ih hab e' hmem

/-- A loop over labels whose flags already agree with visibility does
nothing: no renders, no evicts, no state change. -/
theorem visLoop_settled (ras : ℕ → ℚ → Option (ℚ × ℕ)) (zoom : ℚ) (minY maxY : ℤ)
    (es : List PageEntry) (h : ∀ e ∈ es, e.rendered = isVisible minY maxY e) :
    visLoop ras zoom minY maxY es = ⟨es, 0, 0, false⟩ := by
  induction es with
  | nil => rfl
  | cons e es ih =>
    have he := h e (by simp)
    have hrest := ih (fun e' he' => h e' (by simp [he']))
    cases hv : isVisible minY maxY e with
    | true =>
      have hr : e.rendered = true := by rw [he, hv]
      simp [visLoop, hv, hr, hrest]
    | false =>
      have hr : e.rendered = false := by rw [he, hv]
      simp [visLoop, hv, hr, hrest]

/-- The loop distributes over an append as long as the prefix does not
abort; an abort in the suffix leaves the suffix's trailing labels
unprocessed. -/
theorem visLoop_append (ras : ℕ → ℚ → Option (ℚ × ℕ)) (zoom : ℚ) (minY maxY : ℤ)
    (es1 es2 : List PageEntry)
    (hab : (visLoop ras zoom minY maxY es1).aborted = false) :
    visLoop ras zoom minY maxY (es1 ++ es2) =
      ⟨(visLoop ras zoom minY maxY es1).entries ++ (visLoop ras zoom minY maxY es2).entries,
       (visLoop ras zoom minY maxY es1).renders + (visLoop ras zoom minY maxY es2).renders,
       (visLoop ras zoom minY maxY es1).evicts + (visLoop ras zoom minY maxY es2).evicts,
       (visLoop ras zoom minY maxY es2).aborted⟩ := by
  induction es1 with
  | nil => simp [visLoop]
  | cons e es1 ih =>
    cases hv : isVisible minY maxY e with
    | true =>
      cases hr : e.rendered with
      | true =>
        have hab' : (visLoop ras zoom minY maxY es1).aborted = false := by
          simpa [visLoop, hv, hr] using hab
        simp [visLoop, hv, hr, ih hab']
      | false =>
        cases hrd : render_single_page ras zoom e with
        | none =>
          exfalso
          simp [visLoop, hv, hr, hrd] at hab
        | some e2 =>
          have hab' : (visLoop ras zoom minY maxY es1).aborted = false := by
            simpa [visLoop, hv, hr, hrd] using hab
          simp [visLoop, hv, hr, hrd, ih hab']
          omega
    | false =>
      cases hr : e.rendered with
      | true =>
        have hab' : (visLoop ras zoom minY maxY es1).aborted = false := by
          simpa [visLoop, hv, hr] using hab
        simp [visLoop, hv, hr, ih hab']
        omega
      | false =>
        have hab' : (visLoop ras zoom minY maxY es1).aborted = false := by
          simpa [visLoop, hv, hr] using hab
        simp [visLoop, hv, hr, ih hab']

/-- With the always-succeeding rasterizer no pass ever aborts. -/
theorem visLoop_rasOk_no_abort (zoom : ℚ) (minY maxY : ℤ) (es : List PageEntry) :
    (visLoop rasOk zoom minY maxY es).aborted = false := by
  induction es with
  | nil => rfl
  | cons e es ih =>
    cases hv : isVisible minY maxY e with
    | true =>
      cases hr : e.rendered with
      | true => simpa [visLoop, hv, hr] using ih
      | false => simpa [visLoop, hv, hr, render_single_page, rasOk] using ih
    | false =>
      cases hr : e.rendered with
      | true => simpa [visLoop, hv, hr] using ih
      | false => simpa [visLoop, hv, hr] using ih

/-- C1: after a settled (non-aborted) visibility pass, a page label is
rendered if and only if its vertical extent intersects the inclusion
window, i.e. `entryTop + entryHeight > scroll - vh` and
`entryTop < scroll + 2*vh`. -/
theorem update_visibility_rendered_iff (ras : ℕ → ℚ → Option (ℚ × ℕ)) (zoom : ℚ)
    (scrollY vh : ℤ) (entries : List PageEntry) (e : PageEntry)
    (hab : (update_page_visibility ras zoom scrollY vh entries).aborted = false)
    (he : e ∈ (update_page_visibility ras zoom scrollY vh entries).entries) :
    e.rendered = true ↔
      (e.top + e.height > scrollY - vh ∧ e.top < scrollY + vh * 2) := by
  have h := visLoop_rendered_iff ras zoom (scrollY - vh) (scrollY + vh * 2) entries hab e he
  rw [h]
  simp [isVisible]

/-- C1 witness: one 600 x 800 page at top 0, scroll 0, viewport height
1000 — the pass renders it and its extent intersects the window. -/
theorem update_visibility_rendered_iff_witness :
    (({ pageIndex := 0, natW := 600, natH := 800, top := 0, width := 600, height := 800,
        rendered := true, bitmap := some (1, 0), placeholder := false } : PageEntry).rendered
          = true) ↔
      (((0 : ℤ) + 800 > 0 - 1000) ∧ ((0 : ℤ) < 0 + 1000 * 2)) :=
  update_visibility_rendered_iff rasOk 1 0 1000 [mkPlaceholder 0 0] _ (by decide) (by decide)

/-- C10: running a second pass directly on the output of a settled pass
performs zero renders and zero evicts and changes nothing — the
`rendered` flags guard every operation. -/
theorem second_pass_no_ops (zoom : ℚ) (scrollY vh : ℤ) (entries : List PageEntry) :
    update_page_visibility rasOk zoom scrollY vh
        ((update_page_visibility rasOk zoom scrollY vh entries).entries) =
      ⟨(update_page_visibility rasOk zoom scrollY vh entries).entries, 0, 0, false⟩ := by
  unfold update_page_visibility
  apply visLoop_settled
  intro e he
  exact visLoop_rendered_iff rasOk zoom _ _ entries
    (visLoop_rasOk_no_abort zoom _ _ entries) e he

/-- C9 (amended): a page whose rasterization raises is left completely
unchanged — still unrendered, placeholder intact — and a later pass that
finds it visible and unrendered re-attempts (and, with a working
rasterizer, completes) the render; but the exception aborts the current
pass: labels before the failing one keep the updates already applied,
labels after it are not processed at all. -/
theorem render_error_aborts_pass_after_prefix (ras : ℕ → ℚ → Option (ℚ × ℕ)) (zoom : ℚ)
    (scrollY vh : ℤ) (es1 es2 : List PageEntry) (e : PageEntry)
    (hab : (update_page_visibility ras zoom scrollY vh es1).aborted = false)
    (hvis : isVisible (scrollY - vh) (scrollY + vh * 2) e = true)
    (hunr : e.rendered = false)
    (hfail : ras e.pageIndex zoom = none) :
    (update_page_visibility ras zoom scrollY vh (es1 ++ e :: es2)).aborted = true ∧
    (update_page_visibility ras zoom scrollY vh (es1 ++ e :: es2)).entries =
      (update_page_visibility ras zoom scrollY vh es1).entries ++ e :: es2 ∧
    (update_page_visibility rasOk zoom scrollY vh [e]).entries =
      [{ e with bitmap := some (zoom, e.pageIndex), rendered := true, placeholder := false }] := by
  unfold update_page_visibility at hab ⊢
  have hsuffix : visLoop ras zoom (scrollY - vh) (scrollY + vh * 2) (e :: es2) =
      ⟨e :: es2, 1, 0, true⟩ := by
    simp [visLoop, hvis, hunr, render_single_page, hfail]
  have happ := visLoop_append ras zoom (scrollY - vh) (scrollY + vh * 2) es1 (e :: es2) hab
  rw [hsuffix] at happ
  refine ⟨?_, ?_, ?_⟩
  · rw [happ]
  · rw [happ]
  · simp [visLoop, hvis, hunr, render_single_page, rasOk]

/-- C9 witness: page 0's rasterization fails while page 1 is also
visible and unrendered; the failing page is untouched and would render
on a retry with a working rasterizer. -/
theorem render_error_aborts_witness :
    (update_page_visibility rasFail0 1 0 1000
        [mkPlaceholder 0 0, mkPlaceholder 1 820]).aborted = true ∧
    (update_page_visibility rasFail0 1 0 1000
        [mkPlaceholder 0 0, mkPlaceholder 1 820]).entries =
      (update_page_visibility rasFail0 1 0 1000 ([] : List PageEntry)).entries ++
        mkPlaceholder 0 0 :: [mkPlaceholder 1 820] ∧
    (update_page_visibility rasOk 1 0 1000 [mkPlaceholder 0 0]).entries =
      [{ (mkPlaceholder 0 0) with
          bitmap := some (1, 0),
          rendered := true,
          placeholder := false }] :=
  render_error_aborts_pass_after_prefix rasFail0 1 0 1000 [] [mkPlaceholder 1 820]
    (mkPlaceholder 0 0) (by decide) (by decide) (by decide) (by decide)

/-- C9 counterexample: the rasterization error on page 0 aborts the
pass, so the remaining page 1 — visible and unrendered — is not
processed in that pass, contradicting "this failure does not abort the
processing of the remaining pages". -/
theorem render_error_skips_remaining_pages :
    (update_page_visibility rasFail0 1 0 1000
        [mkPlaceholder 0 0, mkPlaceholder 1 820]).entries =
      [mkPlaceholder 0 0, mkPlaceholder 1 820] ∧
    isVisible (0 - 1000) (0 + 1000 * 2) (mkPlaceholder 1 820) = true ∧
    (mkPlaceholder 1 820).rendered = false ∧
    (update_page_visibility rasFail0 1 0 1000
        [mkPlaceholder 0 0, mkPlaceholder 1 820]).renders = 1 := by decide

/-- Relaying out only rewrites each label's vertical position. -/
theorem relayoutFrom_get? (spacing : ℤ) (l : List PageEntry) :
    ∀ (y : ℤ) (i : ℕ) (e : PageEntry), l.get? i = some e →
      ∃ t : ℤ, (relayoutFrom spacing y l).get? i = some { e with top := t } := by
  induction l with
  | nil => intro y i e h; simp at h
  | cons e0 l ih =>
    intro y i e h
    cases i with
    | zero =>
      simp at h
      subst h
      exact ⟨y, rfl⟩
    | succ i =>
      obtain ⟨t, ht⟩ := ih (y + e0.height + spacing) i e h
      exact ⟨t, ht⟩

/-- Relaying out preserves the number of labels. -/
theorem relayoutFrom_length (spacing : ℤ) (l : List PageEntry) :
    ∀ y, (relayoutFrom spacing y l).length = l.length := by
  induction l with
  | nil => intro y; rfl
  | cons e l ih => intro y; simp [relayoutFrom, ih]

/-- C8 (amended): an accepted zoom change recomputes every label's
geometry as `int(natural * newZoom)` over all pages regardless of
rendered state, marks every label unrendered unconditionally, and then
invokes the visibility pass exactly once; the old bitmap however is
retained at mark time — it is only replaced or evicted by later passes,
not dropped. -/
theorem apply_new_zoom_marks_and_passes_once (ras : ℕ → ℚ → Option (ℚ × ℕ))
    (scrollY vh margin spacing : ℤ) (zoom : ℚ) (entries : List PageEntry) :
    ∃ mid : List PageEntry,
      apply_new_zoom ras scrollY vh margin spacing zoom entries =
        update_page_visibility ras zoom scrollY vh mid ∧
      mid.length = entries.length ∧
      ∀ i : ℕ, i < entries.length →
        ∃ e e', entries.get? i = some e ∧ mid.get? i = some e' ∧
          e'.rendered = false ∧
          e'.width = pyint (e.natW * zoom) ∧ e'.height = pyint (e.natH * zoom) ∧
          e'.bitmap = e.bitmap ∧ e'.pageIndex = e.pageIndex := by
  refine ⟨relayout margin spacing (entries.map (invalidateEntry zoom)), rfl, ?_, ?_⟩
  · unfold relayout
    rw [relayoutFrom_length, List.length_map]
  · intro i hi
    obtain ⟨e, he⟩ : ∃ e, entries.get? i = some e := by
      rcases h : entries.get? i with _ | e
      · rw [List.get?_eq_none] at h
        omega
      · exact ⟨e, rfl⟩
    have hm : (entries.map (invalidateEntry zoom)).get? i =
        some (invalidateEntry zoom e) := by
      rw [List.get?_map, he]
      rfl
    obtain ⟨t, ht⟩ := relayoutFrom_get? spacing (entries.map (invalidateEntry zoom))
      margin i _ hm
    exact ⟨e, { (invalidateEntry zoom e) with top := t }, he, ht, rfl, rfl, rfl, rfl, rfl⟩

/-- C8 counterexample: page 2 is rendered at zoom 1; after the accepted
change to zoom 6/5 it falls outside the window, is marked unrendered —
and still holds its zoom-1 bitmap, which was not dropped. -/
theorem zoom_change_retains_stale_bitmap :
    ((c8Start.get? 2).map fun e => (e.rendered, e.bitmap)) = some (true, some (1, 2)) ∧
    (((apply_new_zoom rasOk 0 1000 0 20 (6 / 5) c8Start).entries.get? 2).map
      fun e => (e.rendered, e.bitmap)) = some (false, some (1, 2)) := by decide

/-- C7: evaluation of the code at the failing input.  Under the binary64
float semantics the zoom variable actually has, three `zoom_out` calls
from 1.0 produce `0.4000000000000001`, which passes the `> 0.4` guard, so
the fourth call drives the zoom to `0.20000000000000007` — strictly below
the 0.4 floor the guard (and the spec) intend.  (With exact real
arithmetic the sequence would stop at 0.4 and the floor would hold; the
comparison against the rounding error is the bug.) -/
theorem zoom_out_breaks_floor_in_binary64 :
    fl04 < zoom_out_iter 3 1 ∧
    zoom_out_iter 4 1 = 1801439850948199 / 9007199254740992 ∧
    zoom_out_iter 4 1 < 2 / 5 ∧
    zoom_out_iter 4 1 < fl04 := by decide

end

end JustRead
